import Mathlib

/-!
Verification of the NUClear dispatch-core specification against the source.

The repository ships five header files; pure template logic (BindFusion,
Network word, get_identifier, is_transient traits, LogLevel, Reactor
declarations) is embedded directly from the source.  The scheduler engine
(EmitPipeline, SyncScheduler, TaskQueue, DataStore, buildOptions bodies)
lives in `.ipp`/`.cpp` files that are not part of the source tree, so those
components are modelled from the specification text, as marked on each
definition.
-/

namespace NUClearSpec

/-! ### util/get_identifier.h -/

/-- Embedding of `NUClear::util::get_identifier<TFusion, TFunc>(usr)`
(src/src/include/nuclear_bits/util/get_identifier.h, lines 29-40).
Type names are represented by the strings `typeid(...).name()` would give;
`demangle` is the external demangling collaborator, passed as a function.
The body mirrors the source: reserve 3, then push `usr`, the demangled
fusion-type name, and the demangled callback-type name. -/
def get_identifier (demangle : String → String) (fusionName funcName : String)
    (usr : String) : List String :=
  let out : Array String := Array.mkEmpty 3
  let out := out.push usr
  let out := out.push (demangle fusionName)
  let out := out.push (demangle funcName)
  out.toList

/-! ### dsl/word/Network.hpp -/

/-- Embedding of `NUClear::dsl::word::NetworkSource` (Network.hpp lines 36-41).
`sock_t` is an external network type, modelled opaquely as a `Nat`. -/
structure NetworkSource where
  name : String
  address : Nat
deriving DecidableEq, Repr

/-- Embedding of `NUClear::dsl::word::NetworkListen` (Network.hpp lines 43-48).
The reaction pointer is modelled by the reaction's id. -/
structure NetworkListen where
  hash : Nat
  reaction : Nat
deriving DecidableEq, Repr

/-- Embedding of `Network<T>::get` (Network.hpp lines 94-111).  The two
thread-store slots (`ThreadStore<std::vector<char>>::value` and
`ThreadStore<NetworkSource>::value`) are the two `Option` arguments; the
external `Serialise<T>::deserialise` is the `deserialise` argument.  If both
slots are non-null the source returns a copy of the stored source together
with the deserialised data; otherwise it returns a pair of null pointers. -/
def networkGet {α : Type} (deserialise : List Char → α)
    (data : Option (List Char)) (source : Option NetworkSource) :
    Option NetworkSource × Option α :=
  match data, source with
  | some d, some s => (some s, some (deserialise d))
  | _, _ => (none, none)

/-- Codes for the C++ types at which the `is_transient` trait is consulted. -/
inductive CType where
  | networkData (t : CType)
  | sharedPtrNetworkSource
  | other (n : Nat)
deriving DecidableEq, Repr

/-- Embedding of the `NUClear::dsl::trait::is_transient` specialisations of
Network.hpp lines 116-124: `is_transient<NetworkData<T>>` and
`is_transient<std::shared_ptr<NetworkSource>>` are `std::true_type`; the
primary template (declared in is_transient.hpp) defaults to false. -/
def is_transient : CType → Bool
  | .networkData _ => true
  | .sharedPtrNetworkSource => true
  | .other _ => false

/-! ### dsl/fusion/BindFusion.h -/

/-- A DSL word as BindFusion sees it: an optional `bind` hook of the word
itself (`has_bind<TFirst>`) and an optional `bind` hook of its
`operation::DSLProxy<TFirst>`.  A hook is modelled by the vector of
`ReactionHandle`s (handle ids) it returns; `id` identifies the word so that
invocation order can be stated.  -/
structure Word where
  id : Nat
  direct : Option (List Nat)
  proxy : Option (List Nat)
deriving DecidableEq, Repr

/-- `Any<has_bind<U>, has_bind<DSLProxy<U>>>` for one word. -/
def hasBindWord (w : Word) : Bool := w.direct.isSome || w.proxy.isSome

/-- `Any<Any<has_bind<TWords>, has_bind<DSLProxy<TWords>>>...>`. -/
def anyBind (ws : List Word) : Bool := ws.any hasBindWord

/-- `If<has_bind<TFirst>, TFirst, DSLProxy<TFirst>>::bind`: the handles
returned by the hook selected for this word (the word's own bind when it has
one, otherwise its DSLProxy's). -/
def effHandles (w : Word) : List Nat :=
  match w.direct with
  | some hs => hs
  | none => w.proxy.getD []

/-- Embedding of `BindFusion<TFirst, TWords...>::bind` together with
`BindFission` (BindFusion.h lines 50-138), instrumented with the list of
word ids whose hook is invoked, in invocation order.  The three overloads of
the source are the three live branches: "us and our children" runs our hook
then recurses through `BindFission` and concatenates (lines 63-69), "us but
not our children" runs only our hook (line 116), "not us but our children"
skips to the recursion (line 136); when no word in the pack has a hook no
overload is enabled, which is `none` here. -/
def bindFusion : List Word → Option (List Nat × List Nat)
  | [] => none
  | w :: rest =>
    match hasBindWord w, anyBind rest with
    | true, true =>
      match bindFusion rest with
      | some (ids, handles) => some (w.id :: ids, effHandles w ++ handles)
      | none => none
    | true, false => some ([w.id], effHandles w)
    | false, true => bindFusion rest
    | false, false => none

/-! ### dsl/word/Network.hpp: bind and dispatch scopes -/

/-- A reaction handle (`threading::ReactionHandle`), holding the reaction it
refers to (Network.hpp line 87 constructs it from `task->reaction`). -/
structure RHandle where
  reaction : Nat
deriving DecidableEq, Repr

/-- The emit scopes handled by the dispatch core (spec §4.3). -/
inductive Scope where
  | LOCAL
  | DIRECT
  | INITIALIZE
  | NETWORK
deriving DecidableEq, Repr

/-- Modelled from the spec: the dispatch-relevant registration state — the
local registry (TypeKey → reactions triggered by local-path emits of that
key, spec §4.2) and the table of network listeners the network collaborator
keeps, fed by DIRECT-scope emits of `NetworkListen` (spec §6).  The
registry/dispatch engine is not part of the source tree. -/
structure DispatchState where
  localRegistry : Nat → List Nat
  netListeners : List NetworkListen

/-- Embedding of `Network<T>::bind` (Network.hpp lines 76-92).  The type `T`
is represented by its serialisation hash `serialHash` (the value of
`util::serialise::Serialise<T>::hash()`) and the reaction generated from the
callback by `util::generate_reaction` is represented by its id `genReaction`
(both are external collaborators of this header).  The function returns the
state after the bind, the list of DIRECT-scope emits performed, and the
returned handle: the source fills a `NetworkListen` with the hash and the
generated reaction, emits it exactly once with `emit::Direct` — which the
network subsystem consumes by appending a listener, leaving the local
registry untouched — and returns a handle on that same reaction. -/
def networkBind (serialHash genReaction : Nat) (s : DispatchState) :
    DispatchState × List NetworkListen × RHandle :=
  let task : NetworkListen := { hash := serialHash, reaction := genReaction }
  ({ s with netListeners := s.netListeners ++ [task] }, [task],
    { reaction := genReaction })

/-- Modelled from the spec: which reactions an emit of TypeKey `k` under a
given scope triggers through the local path.  LOCAL, DIRECT and INITIALIZE
dispatch over the local registry (spec §4.3: DIRECT runs the same matching
callbacks inline, INITIALIZE is replayed as LOCAL); NETWORK is routed to the
external network collaborator and triggers no local reaction (spec §4.3:
"does NOT trigger local non-Network reactions"). -/
def localDispatch (s : DispatchState) (scope : Scope) (k : Nat) : List Nat :=
  match scope with
  | .NETWORK => []
  | _ => s.localRegistry k

/-! ### Reactor.h options

The declarations `buildOptions` / `buildOptionsImpl` are in
src/NUClear/Reactor.h lines 142-166; their bodies live in Reactor.ipp,
which is not part of the source tree, so their behaviour is modelled from
the specification. -/

/-- The five scheduling priorities (`enum EPriority`, referenced from
Reactor.h line 88; the enum itself lives in Internal/Options.h, outside the
tree).  Order of declaration is highest first, as listed in the spec. -/
inductive EPriority where
  | REALTIME
  | HIGH
  | NORMAL
  | LOW
  | LOWEST
deriving DecidableEq, Repr

/-- Modelled from the spec: `Internal::ReactionOptions`, the per-reaction
option record `{ priority, sync_group: optional TypeKey, single: bool }`
(spec §3 Reaction.options); this type is declared in Internal/Options.h,
which is not part of the source tree.  TypeKeys are modelled as `Nat`. -/
structure ReactionOptions where
  priority : EPriority
  syncGroup : Option Nat
  single : Bool
deriving DecidableEq, Repr

/-- Modelled from the spec: the defaults of a fresh `ReactionOptions` —
priority NORMAL (spec §6: "NORMAL (default)"), no sync group, single unset
(spec §9: an empty option pack leaves the options defaulted). -/
def defaultOptions : ReactionOptions :=
  { priority := .NORMAL, syncGroup := none, single := false }

/-- One option word of `Options<...>` (Reactor.h lines 88-94): `Single`,
`Sync<TSync>` or `Priority<P>`. -/
inductive OptionWord where
  | single
  | sync (group : Nat)
  | priority (p : EPriority)
deriving DecidableEq, Repr

/-- Modelled from the spec: the three `buildOptionsImpl` overloads declared
at Reactor.h lines 150-166; each one records the option it handles on the
options object — `Single` sets the single flag, `Sync<TSync>` sets the sync
group, `Priority<P>` sets the priority (spec §6 options list). -/
def buildOptionsImpl (opts : ReactionOptions) : OptionWord → ReactionOptions
  | .single => { opts with single := true }
  | .sync g => { opts with syncGroup := some g }
  | .priority p => { opts with priority := p }

/-- Modelled from the spec: `buildOptions` (declared Reactor.h line 142-143)
applies `buildOptionsImpl` for each option in the pack, in order, to the
passed options object. -/
def buildOptions (pack : List OptionWord) (opts : ReactionOptions) :
    ReactionOptions :=
  pack.foldl buildOptionsImpl opts

/-! ### Scheduler state machines

The EmitPipeline, SyncScheduler, TaskQueue and DataStore implementations
live in `.ipp`/`.cpp` files that are not part of the source tree; they are
modelled from the specification (§4.1, §4.3-§4.6). -/

/-- Modelled from the spec: scheduling state of one reaction — `queued`
counts tasks submitted but not yet picked up by a worker, `running` counts
tasks currently executing.  The reaction's atomic `active` counter (spec §3)
counts scheduled-or-running instances, i.e. `queued + running`. -/
structure SingleState where
  queued : Nat
  running : Nat
deriving DecidableEq, Repr

/-- The reaction's `active` counter: scheduled-or-running instances. -/
def activeCount (s : SingleState) : Nat := s.queued + s.running

/-- Modelled from the spec: the EmitPipeline submission step for one
reaction (§4.3 step 3): if the reaction has `Single` and `active > 0` the
submission is dropped at emit time — the state is unchanged, no task is
created or queued; otherwise a task is built, `active` is incremented and
the task is submitted. -/
def emitSubmit (single : Bool) (s : SingleState) : SingleState :=
  if single = true ∧ 0 < activeCount s then s
  else { queued := s.queued + 1, running := s.running }

/-- Modelled from the spec: the events that change one reaction's scheduling
state — a matching emit (§4.3), a worker picking up a queued task (§4.6
steps 1-5), and a worker completing a task, which decrements `active` (§4.6
step 6). -/
inductive SingleStep (single : Bool) : SingleState → SingleState → Prop
  | emit (s) : SingleStep single s (emitSubmit single s)
  | start (s) (h : 0 < s.queued) :
      SingleStep single s { queued := s.queued - 1, running := s.running + 1 }
  | finish (s) (h : 0 < s.running) :
      SingleStep single s { queued := s.queued, running := s.running - 1 }

/-- Modelled from the spec: reaction states reachable from the initial state
(no scheduled or running task) by scheduler events. -/
inductive SingleReach (single : Bool) : SingleState → Prop
  | init : SingleReach single { queued := 0, running := 0 }
  | step {s t} : SingleReach single s → SingleStep single s t →
      SingleReach single t

/-- Modelled from the spec: SyncScheduler state of one Sync group G (§4.5) —
the `running` flag, the pending FIFO of parked tasks, and the number of
tasks of the group currently executing (instrumentation for the invariant;
not a field the scheduler itself keeps). -/
structure GroupState where
  running : Bool
  executing : Nat
  pending : List Nat
deriving DecidableEq, Repr

/-- Modelled from the spec: the admission protocol (§4.5), called by a
worker immediately before executing a task with sync_group G: if the
`running` flag is clear, set it and execute; otherwise push the task on the
pending FIFO — the worker abandons it and it is not executed now. -/
def admitTask (t : Nat) (s : GroupState) : GroupState :=
  if s.running then { s with pending := s.pending ++ [t] }
  else { running := true, executing := s.executing + 1, pending := s.pending }

/-- Modelled from the spec: the release protocol (§4.5), run when the
current holder completes: if the pending FIFO is empty clear the `running`
flag; otherwise pop the next pending task, which is resumed as the new
holder once resubmitted ("the task will be resumed when the current holder
completes"). -/
def releaseTask (s : GroupState) : GroupState :=
  match s.pending with
  | [] => { running := false, executing := s.executing - 1, pending := [] }
  | _ :: rest =>
      { running := true, executing := s.executing - 1 + 1, pending := rest }

/-- Modelled from the spec: the events of one Sync group — a worker asks
admission for a task, or the current holder completes and releases. -/
inductive GroupStep : GroupState → GroupState → Prop
  | arrive (t s) : GroupStep s (admitTask t s)
  | release (s) (h : 0 < s.executing) : GroupStep s (releaseTask s)

/-- Modelled from the spec: group states reachable from the initial state
(flag clear, nothing executing, empty FIFO). -/
inductive GroupReach : GroupState → Prop
  | init : GroupReach ⟨false, 0, []⟩
  | step {s t} : GroupReach s → GroupStep s t → GroupReach t

/-- Modelled from the spec: the DataStore (§4.1) — for each TypeKey a slot
holding the latest payload pointer (possibly null) plus a monotonically
increasing per-slot sequence number (§3).  TypeKeys and payloads are
modelled as `Nat`. -/
def DataStore := Nat → Option Nat × Nat

/-- A store in which no key was ever written. -/
def initStore : DataStore := fun _ => (none, 0)

/-- Modelled from the spec: `put(K, payload) -> seq` atomically replaces the
slot for K and returns the new sequence number (§4.1). -/
def putStore (k payload : Nat) (st : DataStore) : DataStore × Nat :=
  (fun j => if j = k then (some payload, (st k).2 + 1) else st j,
    (st k).2 + 1)

/-- Modelled from the spec: `get(K) -> (payload, seq)`, an atomic snapshot;
may return a null payload if K was never written (§4.1). -/
def getStore (k : Nat) (st : DataStore) : Option Nat × Nat := st k

/-- Modelled from the spec: step 1 of a LOCAL-scope emit (§4.3):
`seq = DataStore.put(KeyOf(T), payload)`. -/
def emitLocalPut (k payload : Nat) (st : DataStore) : DataStore × Nat :=
  putStore k payload st

/-- Numeric rank of a priority bucket: highest priority first (§4.4: pop
order is priority descending). -/
def rank : EPriority → Nat
  | .REALTIME => 0
  | .HIGH => 1
  | .NORMAL => 2
  | .LOW => 3
  | .LOWEST => 4

/-- A queued reaction task as the TaskQueue sees it: its reaction's priority
and its submission sequence number (spec §3 Task). -/
structure QTask where
  pri : EPriority
  seq : Nat
deriving DecidableEq, Repr

/-- Modelled from the spec: the TaskQueue (§4.4) — five buckets, one per
priority level, each FIFO by submit_seq. -/
def TaskQueue := EPriority → List QTask

/-- Modelled from the spec: submission appends the task at the tail of its
priority's bucket (§4.4: within a bucket, FIFO by submit_seq). -/
def pushTask (t : QTask) (q : TaskQueue) : TaskQueue :=
  fun p => if p = t.pri then q p ++ [t] else q p

/-- Scans the given buckets in order and takes the head of the first
non-empty one. -/
def popScan (q : TaskQueue) : List EPriority → Option QTask
  | [] => none
  | p :: ps =>
    match q p with
    | [] => popScan q ps
    | t :: _ => some t

/-- The five priority buckets, highest first. -/
def priOrder : List EPriority := [.REALTIME, .HIGH, .NORMAL, .LOW, .LOWEST]

/-- Modelled from the spec: pop takes the head of the highest-priority
non-empty bucket (§4.4: a priority queue keyed on (priority_bucket,
submit_seq)). -/
def popTask (q : TaskQueue) : Option QTask := popScan q priOrder

/-- Queue well-formedness: every bucket holds only tasks of its own priority
and is strictly increasing in submit_seq — the state every queue built by
tail-pushes of monotonically numbered submissions is in. -/
def WFQueue (q : TaskQueue) : Prop :=
  ∀ p : EPriority,
    (∀ t ∈ q p, t.pri = p) ∧ (q p).Pairwise (fun a b => a.seq < b.seq)

/-- A concrete queue used to evaluate the pop-order theorem: one HIGH task
with seq 2 and two NORMAL tasks with seqs 1 and 3. -/
def witnessQueue : TaskQueue := fun p =>
  match p with
  | .HIGH => [⟨.HIGH, 2⟩]
  | .NORMAL => [⟨.NORMAL, 1⟩, ⟨.NORMAL, 3⟩]
  | _ => []

/-! ### Claim theorems for the above -/

/-- Helper for C1: every scheduler event preserves `active ≤ 1` for a
Single reaction. -/
theorem singleStep_active_invariant {s t : SingleState}
    (hstep : SingleStep true s t) (h : activeCount s ≤ 1) :
    activeCount t ≤ 1 := by
  cases hstep with
  | emit =>
    unfold emitSubmit
    by_cases hpos : 0 < activeCount s
    · rw [if_pos ⟨rfl, hpos⟩]
      exact h
    · rw [if_neg fun hc => hpos hc.2]
      have hzero : activeCount s = 0 := Nat.eq_zero_of_not_pos hpos
      simp only [activeCount] at hzero ⊢
      omega
  | start hq =>
    simp only [activeCount] at h ⊢
    omega
  | finish hr =>
    simp only [activeCount] at h ⊢
    omega

/-- C1: for a reaction whose options include Single, in every reachable
state the active counter is 0 or 1, and when active > 0 an emit matching
the reaction is dropped at emit time: the submission step leaves the state
unchanged — no task is created or queued (so nothing is deferred to worker
time). -/
theorem single_active_at_most_one (s : SingleState)
    (h : SingleReach true s) :
    activeCount s ≤ 1 ∧ (0 < activeCount s → emitSubmit true s = s) := by
  have main : activeCount s ≤ 1 := by
    induction h with
    | init => simp [activeCount]
    | step hr hstep ih => exact singleStep_active_invariant hstep ih
  refine ⟨main, fun hpos => ?_⟩
  unfold emitSubmit
  rw [if_pos ⟨rfl, hpos⟩]

/-- Witness for C1: the state with one queued task is reachable (one emit
from the initial state); there the theorem evaluates to active = 1 ≤ 1 and
a further emit changing nothing. -/
theorem single_active_at_most_one_witness :
    activeCount ⟨1, 0⟩ ≤ 1 ∧ emitSubmit true ⟨1, 0⟩ = ⟨1, 0⟩ := by
  have hreach : SingleReach true ⟨1, 0⟩ := by
    have h0 : SingleReach true (emitSubmit true ⟨0, 0⟩) :=
      SingleReach.step SingleReach.init (SingleStep.emit ⟨0, 0⟩)
    have he : emitSubmit true ⟨0, 0⟩ = ⟨1, 0⟩ := by decide
    rwa [he] at h0
  have h := single_active_at_most_one ⟨1, 0⟩ hreach
  exact ⟨h.1, h.2 (by decide)⟩

/-- Helper for C2: every group event preserves the Sync invariant — at most
one executing task, and the running flag set exactly when one is. -/
theorem groupStep_sync_invariant {s t : GroupState} (hstep : GroupStep s t)
    (h : s.executing ≤ 1 ∧ (s.running = true ↔ s.executing = 1)) :
    t.executing ≤ 1 ∧ (t.running = true ↔ t.executing = 1) := by
  cases hstep with
  | arrive t0 =>
    unfold admitTask
    by_cases hrun : s.running = true
    · rw [if_pos hrun]
      exact ⟨h.1, by simpa [hrun] using h.2⟩
    · rw [if_neg hrun]
      have hzero : s.executing = 0 := by
        have hne : s.executing ≠ 1 := fun he => hrun (h.2.mpr he)
        omega
      simp [hzero]
  | release hexec =>
    have hone : s.executing = 1 := by
      have h1 := h.1
      omega
    unfold releaseTask
    cases hp : s.pending with
    | nil => simp [hone]
    | cons a rest => simp [hone]

/-- C2: for a Sync group G, in every reachable state at most one task of the
group is executing, the running flag is set exactly when one is, and while
the flag is set any task asking admission is parked on the pending FIFO —
it does not execute until the current holder completes. -/
theorem sync_group_mutual_exclusion (s : GroupState) (h : GroupReach s) :
    s.executing ≤ 1 ∧ (s.running = true ↔ s.executing = 1) ∧
    (s.running = true → ∀ t : Nat,
      (admitTask t s).executing = s.executing ∧
      (admitTask t s).pending = s.pending ++ [t]) := by
  have main : s.executing ≤ 1 ∧ (s.running = true ↔ s.executing = 1) := by
    induction h with
    | init => simp
    | step hr hstep ih => exact groupStep_sync_invariant hstep ih
  refine ⟨main.1, main.2, fun hrun t => ?_⟩
  unfold admitTask
  rw [if_pos hrun]
  exact ⟨rfl, rfl⟩

/-- Witness for C2: the state with the flag set and one executing task is
reachable (admit one task from the initial state); there the theorem gives
executing = 1 and a second admission that parks on the FIFO without
executing. -/
theorem sync_group_mutual_exclusion_witness :
    (GroupState.mk true 1 []).executing ≤ 1 ∧
    (admitTask 9 ⟨true, 1, []⟩).executing = 1 ∧
    (admitTask 9 ⟨true, 1, []⟩).pending = [9] := by
  have hreach : GroupReach ⟨true, 1, []⟩ := by
    have h0 := GroupReach.step GroupReach.init (GroupStep.arrive 3 ⟨false, 0, []⟩)
    have ha : admitTask 3 ⟨false, 0, []⟩ = ⟨true, 1, []⟩ := by decide
    rwa [ha] at h0
  have h := sync_group_mutual_exclusion ⟨true, 1, []⟩ hreach
  refine ⟨h.1, ?_, ?_⟩
  · rw [(h.2.2 rfl 9).1]
  · rw [(h.2.2 rfl 9).2]
    rfl

/-- C3: a LOCAL-scope emit of payload p for key K writes the store so that
`get(K)` returns exactly p with the sequence number the put returned;
before any write to K — on the fresh store, and unaffected by writes to
other keys — `get(K)` returns a null payload (with seq 0) rather than
failing. -/
theorem local_emit_get_roundtrip (k p : Nat) (st : DataStore) :
    getStore k (emitLocalPut k p st).1 = (some p, (emitLocalPut k p st).2) ∧
    getStore k initStore = (none, 0) ∧
    (∀ j q, j ≠ k → getStore k (putStore j q st).1 = getStore k st) := by
  refine ⟨?_, rfl, fun j q hj => ?_⟩
  · simp [getStore, emitLocalPut, putStore]
  · simp [getStore, putStore, Ne.symm hj]

/-- Witness for C3: on the fresh store, putting 5 at key 1 makes `get(1)`
return payload 5 with seq 1, while `get(1)` after an unrelated write to
key 2 still returns the null payload with seq 0. -/
theorem local_emit_get_roundtrip_witness :
    getStore 1 (emitLocalPut 1 5 initStore).1 = (some 5, 1) ∧
    getStore 1 (putStore 2 9 initStore).1 = (none, 0) := by
  have h := local_emit_get_roundtrip 1 5 initStore
  exact ⟨h.1, (h.2.2 2 9 (by decide)).trans rfl⟩

/-- Helper for C4: a scan over buckets listed in strictly descending
priority returns the head of the first non-empty bucket, which beats every
other queued task on (priority desc, submit_seq asc). -/
theorem popScan_first_nonempty (q : TaskQueue) (wf : WFQueue q) :
    ∀ (ps : List EPriority) (t : QTask),
      ps.Pairwise (fun a b => rank a < rank b) →
      popScan q ps = some t →
      t.pri ∈ ps ∧
      ∀ u : QTask, u.pri ∈ ps → u ∈ q u.pri → u ≠ t →
        rank t.pri < rank u.pri ∨ (u.pri = t.pri ∧ t.seq < u.seq) := by
  intro ps
  induction ps with
  | nil => intro t _ hpop; simp [popScan] at hpop
  | cons p ps ih =>
    intro t hpair hpop
    rw [popScan] at hpop
    rcases hqp : q p with _ | ⟨t0, rest⟩
    · rw [hqp] at hpop
      have ihm := ih t (List.Pairwise.of_cons hpair) hpop
      refine ⟨List.mem_cons_of_mem p ihm.1, fun u hu hmem hne => ?_⟩
      rcases List.mem_cons.mp hu with hup | hup
      · rw [hup] at hmem
        rw [hqp] at hmem
        exact absurd hmem (List.not_mem_nil u)
      · exact ihm.2 u hup hmem hne
    · rw [hqp] at hpop
      have ht0 : t0 = t := by
        simpa using hpop
      subst ht0
      have htp : t0.pri = p := (wf p).1 t0 (hqp ▸ List.mem_cons_self t0 rest)
      refine ⟨htp ▸ List.mem_cons_self p ps, fun u hu hmem hne => ?_⟩
      rcases List.mem_cons.mp hu with hup | hup
      · right
        refine ⟨hup.trans htp.symm, ?_⟩
        rw [hup, hqp] at hmem
        rcases List.mem_cons.mp hmem with rfl | hurest
        · exact absurd rfl hne
        · have hpw := (wf p).2
          rw [hqp] at hpw
          exact (List.pairwise_cons.mp hpw).1 u hurest
      · left
        rw [htp]
        exact (List.pairwise_cons.mp hpair).1 u.pri hup

/-- C4: when every bucket is FIFO by submit_seq (as tail-pushes of
monotonically numbered submissions keep it), the popped task beats every
other task in the queue on (priority desc, submit_seq asc): any other
queued task has strictly lower priority, or equal priority and a larger
submit_seq — FIFO within each of the five priority buckets. -/
theorem taskqueue_pop_order (q : TaskQueue) (t : QTask) (wf : WFQueue q)
    (hpop : popTask q = some t) :
    ∀ u : QTask, u ∈ q u.pri → u ≠ t →
      rank t.pri < rank u.pri ∨ (u.pri = t.pri ∧ t.seq < u.seq) := by
  intro u hmem hne
  have hall : ∀ pr : EPriority, pr ∈ priOrder := by
    intro pr; cases pr <;> decide
  exact (popScan_first_nonempty q wf priOrder t (by decide) hpop).2
    u (hall u.pri) hmem hne

/-- Witness for C4: on a queue holding HIGH seq 2 and NORMAL seqs 1 and 3,
pop returns the HIGH task and the theorem evaluates against the NORMAL
seq-1 task: the HIGH bucket outranks it even though its seq is larger. -/
theorem taskqueue_pop_order_witness :
    rank EPriority.HIGH < rank EPriority.NORMAL ∨
      (EPriority.NORMAL = EPriority.HIGH ∧ (2 : Nat) < 1) := by
  have hwf : WFQueue witnessQueue := by
    intro p
    cases p <;> simp [witnessQueue]
  have hpop : popTask witnessQueue = some ⟨.HIGH, 2⟩ := by decide
  have h := taskqueue_pop_order witnessQueue ⟨.HIGH, 2⟩ hwf hpop
    ⟨.NORMAL, 1⟩ (by decide) (by decide)
  simpa using h

/-- C5: whenever at least one word of the pack has a bind hook (otherwise no
overload of `BindFusion::bind` is enabled and the call does not compile),
`bind` invokes the hook of each word that has one — directly or via its
DSLProxy — exactly once, in the order the words appear, skips hook-less
words, and returns the concatenation of the handle vectors the hooks return,
in that same order. -/
theorem bindFusion_hooks_in_order (ws : List Word) (h : anyBind ws = true) :
    bindFusion ws = some ((ws.filter hasBindWord).map Word.id,
      ((ws.filter hasBindWord).map effHandles).flatten) := by
  induction ws with
  | nil => simp [anyBind] at h
  | cons w rest ih =>
    by_cases hw : hasBindWord w = true
    · by_cases hr : anyBind rest = true
      · rw [bindFusion, hw, hr, ih hr]
        simp [hw]
      · have hrest : rest.filter hasBindWord = [] := by
          simp only [anyBind, List.any_eq_true, Bool.not_eq_true] at hr
          push_neg at hr
          exact List.filter_eq_nil_iff.mpr fun a ha => by simp [hr a ha]
        rw [bindFusion, hw, eq_false_of_ne_true hr]
        simp [hw, hrest]
    · have hw' : hasBindWord w = false := eq_false_of_ne_true hw
      have hr : anyBind rest = true := by
        simp only [anyBind, List.any_cons, hw', Bool.false_or] at h
        exact h
      rw [bindFusion, hw', hr, ih hr]
      simp [hw']

/-- Witness for C5: a three-word pack — a word with a direct hook, a
hook-less word, a word with only a DSLProxy hook — binds to the hook ids in
pack order with the hook-less word skipped, and the handle vectors
concatenated in that order. -/
theorem bindFusion_hooks_in_order_witness :
    bindFusion [⟨0, some [10, 11], none⟩, ⟨1, none, none⟩, ⟨2, none, some [12]⟩]
      = some ([0, 2], [10, 11, 12]) := by
  have h := bindFusion_hooks_in_order
    [⟨0, some [10, 11], none⟩, ⟨1, none, none⟩, ⟨2, none, some [12]⟩] (by decide)
  simpa using h

/-- C6: `Network<T>::bind` emits, with DIRECT scope and exactly once, a
`NetworkListen` descriptor whose hash is `Serialise<T>::hash()` and whose
reaction is the reaction generated from the callback, and returns a handle
on that same reaction; the bind touches only the network-listener table, so
a `Network<T>` reaction (not in the local registry for `T`) is not triggered
by an emit of `T` in any scope other than NETWORK. -/
theorem networkBind_descriptor_scope_isolation
    (serialHash genReaction k : Nat) (s : DispatchState)
    (hfresh : genReaction ∉ s.localRegistry k) :
    (networkBind serialHash genReaction s).2.1
      = [{ hash := serialHash, reaction := genReaction }] ∧
    (networkBind serialHash genReaction s).2.2.reaction = genReaction ∧
    (networkBind serialHash genReaction s).1.localRegistry = s.localRegistry ∧
    (∀ scope : Scope, scope ≠ .NETWORK →
      genReaction ∉ localDispatch (networkBind serialHash genReaction s).1 scope k) := by
  refine ⟨rfl, rfl, rfl, fun scope hscope => ?_⟩
  cases scope with
  | NETWORK => exact absurd rfl hscope
  | LOCAL => exact hfresh
  | DIRECT => exact hfresh
  | INITIALIZE => exact hfresh

/-- Witness for C6: binding a network reaction with hash 42 and generated
reaction 7 on an empty registration state emits exactly the one descriptor
`{hash 42, reaction 7}`, hands back a handle on reaction 7, and a LOCAL
emit of the key dispatches nothing to reaction 7. -/
theorem networkBind_descriptor_scope_isolation_witness :
    (networkBind 42 7 ⟨fun _ => [], []⟩).2.1 = [{ hash := 42, reaction := 7 }] ∧
    (networkBind 42 7 ⟨fun _ => [], []⟩).2.2.reaction = 7 ∧
    7 ∉ localDispatch (networkBind 42 7 ⟨fun _ => [], []⟩).1 .LOCAL 5 := by
  have h := networkBind_descriptor_scope_isolation 42 7 5
    ⟨fun _ => [], []⟩ (by simp)
  exact ⟨h.1, h.2.1, h.2.2.2 .LOCAL (by simp)⟩

/-- C7: `buildOptions` with an empty option pack leaves the `ReactionOptions`
object at its defaults — priority NORMAL, single flag unset, no sync group —
and each `buildOptionsImpl` overload modifies only the field of the option
it handles. -/
theorem buildOptions_defaults_and_impls :
    buildOptions [] defaultOptions = defaultOptions ∧
    defaultOptions.priority = .NORMAL ∧
    defaultOptions.single = false ∧
    defaultOptions.syncGroup = none ∧
    (∀ o : ReactionOptions,
      (buildOptionsImpl o .single).single = true ∧
      (buildOptionsImpl o .single).priority = o.priority ∧
      (buildOptionsImpl o .single).syncGroup = o.syncGroup) ∧
    (∀ (o : ReactionOptions) (g : Nat),
      (buildOptionsImpl o (.sync g)).syncGroup = some g ∧
      (buildOptionsImpl o (.sync g)).priority = o.priority ∧
      (buildOptionsImpl o (.sync g)).single = o.single) ∧
    (∀ (o : ReactionOptions) (p : EPriority),
      (buildOptionsImpl o (.priority p)).priority = p ∧
      (buildOptionsImpl o (.priority p)).syncGroup = o.syncGroup ∧
      (buildOptionsImpl o (.priority p)).single = o.single) := by
  refine ⟨rfl, rfl, rfl, rfl, fun o => ⟨rfl, rfl, rfl⟩,
    fun o g => ⟨rfl, rfl, rfl⟩, fun o p => ⟨rfl, rfl, rfl⟩⟩

/-- C8: for every user label and every pair of type names, `get_identifier`
returns exactly three strings: the label unchanged, then the demangled
fusion-type name, then the demangled callback-type name, in that order. -/
theorem get_identifier_three_elements
    (demangle : String → String) (fusionName funcName usr : String) :
    get_identifier demangle fusionName funcName usr
      = [usr, demangle fusionName, demangle funcName] ∧
    (get_identifier demangle fusionName funcName usr).length = 3 := by
  constructor <;> rfl

/-- C9: `is_transient` holds at `NetworkData<T>` for every `T` and at
`std::shared_ptr<NetworkSource>`: network inputs are marked transient. -/
theorem is_transient_network_inputs :
    (∀ t : CType, is_transient (.networkData t) = true) ∧
    is_transient .sharedPtrNetworkSource = true := by
  exact ⟨fun t => rfl, rfl⟩

/-- C10: `Network<T>::get` returns a pair in which either both components are
non-null or both are null: if either thread-store slot is null the result is
the all-null pair, and if both slots are non-null the result is a copy of the
stored source paired with the value deserialised from the stored bytes. -/
theorem networkGet_all_or_nothing {α : Type} (deserialise : List Char → α)
    (data : Option (List Char)) (source : Option NetworkSource) :
    ((networkGet deserialise data source).1.isSome
        ↔ (networkGet deserialise data source).2.isSome) ∧
    (data = none ∨ source = none →
      networkGet deserialise data source = (none, none)) ∧
    (∀ d s, data = some d → source = some s →
      networkGet deserialise data source = (some s, some (deserialise d))) := by
  refine ⟨?_, ?_, ?_⟩
  · cases data <;> cases source <;> simp [networkGet]
  · rintro (rfl | rfl)
    · cases source <;> simp [networkGet]
    · cases data <;> simp [networkGet]
  · rintro d s rfl rfl
    rfl

/-- Witness for C10: at concrete slot contents, the theorem evaluates:
both-null slots give the all-null pair and full slots give the stored
source with the deserialised bytes. -/
theorem networkGet_all_or_nothing_witness :
    networkGet (fun l => l.length) none (some ⟨"peer", 7⟩) = (none, none) ∧
    networkGet (fun l => l.length) (some ['a', 'b']) (some ⟨"peer", 7⟩)
      = (some ⟨"peer", 7⟩, some 2) := by
  constructor
  · exact (networkGet_all_or_nothing (fun l => l.length) none
      (some ⟨"peer", 7⟩)).2.1 (Or.inl rfl)
  · exact (networkGet_all_or_nothing (fun l => l.length) (some ['a', 'b'])
      (some ⟨"peer", 7⟩)).2.2 ['a', 'b'] ⟨"peer", 7⟩ rfl rfl

end NUClearSpec
